import Mathlib

/-!
Verification of the incremental text-synchronization core of `vue-use-monaco`.

The development shallowly embeds the modules that the specification's claims
are about:

* the minimal-diff computer (`computeMinimalEdit`, `src/minimalEdit.ts`);
* the frame scheduler (`src/utils/raf.ts`);
* the scroll watcher / viewport follower (`src/utils/scroll.ts` and the
  `userIsNearBottom` logic of `src/core/EditorManager.ts`);
* the single-buffer manager (`src/core/EditorManager.ts`);
* the dual-buffer manager (`src/core/DiffEditorManager.ts`);
* the highlighter registration cache (`src/utils/registerMonacoThemes.ts`);
* the themes-option validation of `useMonaco` (`src/index.ts`).

JavaScript strings are embedded as `List α` over an arbitrary code-unit type
`α` with decidable equality (UTF-16 code units in the source); concrete
scenarios instantiate `α := Char` with ASCII-only content, where the two
notions coincide.  Monaco model edits used by the managers (insert at the
end-of-document position, offset-range replacement) are embedded as the
corresponding list operations on the model value.
-/

namespace VueUseMonaco

/-! ## Minimal-diff computer -/

/-- Length of the longest common prefix of two lists, i.e. the result of the
forward scan `while start < minLen && prev[start] === next[start]) start++`. -/
def commonPrefixLen {α : Type} [DecidableEq α] : List α → List α → Nat
  | a :: as, b :: bs => if a = b then commonPrefixLen as bs + 1 else 0
  | _, _ => 0

/-- Result record of `computeMinimalEdit`.  `endPrevIncl`/`endNextIncl` are the
last indices included in the differing middle region; they can be `start - 1`
(down to `-1`) when the region is empty, hence `Int`. -/
structure MinimalEditResult (α : Type) where
  start : Nat
  endPrevIncl : Int
  endNextIncl : Int
  replaceText : List α
deriving DecidableEq

/-- Modelled from the spec: the source file `src/minimalEdit.ts` is not part of
the snapshot (only its tests and callers are), so `computeMinimalEdit` is
modelled from spec §4.1: return `null` iff `prev === next`; otherwise scan
forward from index 0 while code units match (common prefix length `start`),
then scan backward from the respective ends while code units match, stopping
before overlapping the prefix (the backward scan over the parts after `start`
is the forward scan over their reversals); `endPrev`/`endNext` are the last
indices included in the differing middle region and `replaceText` is the
substring of `next` from `start` through `endNext` inclusive. -/
def computeMinimalEdit {α : Type} [DecidableEq α] (prev next : List α) :
    Option (MinimalEditResult α) :=
  if prev = next then none
  else
    let start := commonPrefixLen prev next
    let k := commonPrefixLen (prev.drop start).reverse (next.drop start).reverse
    some
      { start := start
        endPrevIncl := (prev.length : Int) - 1 - k
        endNextIncl := (next.length : Int) - 1 - k
        replaceText := (next.take (next.length - k)).drop start }

/-- Applying a `MinimalEditResult` to `prev` the way `applyMinimalEdit`
(`src/core/EditorManager.ts`) does: the offset range from `start` to
`endPrevIncl + 1` (exclusive) is replaced by `replaceText`. -/
def applyEdit {α : Type} (prev : List α) (r : MinimalEditResult α) : List α :=
  prev.take r.start ++ r.replaceText ++ prev.drop (r.endPrevIncl + 1).toNat

theorem commonPrefixLen_le_left {α : Type} [DecidableEq α] :
    ∀ a b : List α, commonPrefixLen a b ≤ a.length
  | [], _ => by simp [commonPrefixLen]
  | _ :: _, [] => by simp [commonPrefixLen]
  | a :: as, b :: bs => by
    by_cases h : a = b <;>
      simp [commonPrefixLen, h, Nat.succ_le_succ (commonPrefixLen_le_left as bs)]

theorem commonPrefixLen_le_right {α : Type} [DecidableEq α] :
    ∀ a b : List α, commonPrefixLen a b ≤ b.length
  | [], _ => by simp [commonPrefixLen]
  | _ :: _, [] => by simp [commonPrefixLen]
  | a :: as, b :: bs => by
    by_cases h : a = b <;>
      simp [commonPrefixLen, h, Nat.succ_le_succ (commonPrefixLen_le_right as bs)]

theorem take_commonPrefixLen_eq {α : Type} [DecidableEq α] :
    ∀ a b : List α, a.take (commonPrefixLen a b) = b.take (commonPrefixLen a b)
  | [], _ => by simp [commonPrefixLen]
  | _ :: _, [] => by simp [commonPrefixLen]
  | a :: as, b :: bs => by
    by_cases h : a = b
    · simp [commonPrefixLen, h, take_commonPrefixLen_eq as bs]
    · simp [commonPrefixLen, h]

/-- Dropping all but the last `k` elements is taking `k` from the reversal. -/
theorem drop_length_sub_eq_reverse_take {α : Type} (l : List α) (k : Nat) :
    l.drop (l.length - k) = (l.reverse.take k).reverse := by
  have h := List.rtake_eq_reverse_take_reverse (l := l) (n := k)
  simpa [List.rtake] using h

/-- The last `k` elements agree when `k` is the common prefix length of the
reversals. -/
theorem drop_suffix_eq {α : Type} [DecidableEq α] (a b : List α)
    (k : Nat) (hk : a.reverse.take k = b.reverse.take k) :
    a.drop (a.length - k) = b.drop (b.length - k) := by
  rw [drop_length_sub_eq_reverse_take, drop_length_sub_eq_reverse_take, hk]

/-- C1: `computeMinimalEdit(a, b)` returns `null` iff `a === b`; when it
returns a non-null result, replacing the region of `a` from offset `start`
through offset `endPrevIncl` (inclusive) with `replaceText` yields exactly
`b`, including when `a` or `b` is empty. -/
theorem computeMinimalEdit_spec {α : Type} [DecidableEq α] (a b : List α) :
    (computeMinimalEdit a b = none ↔ a = b) ∧
    ∀ r : MinimalEditResult α, computeMinimalEdit a b = some r → applyEdit a r = b := by
  constructor
  · unfold computeMinimalEdit
    by_cases h : a = b <;> simp [h]
  · intro r hr
    unfold computeMinimalEdit at hr
    by_cases h : a = b
    · simp [h] at hr
    · simp only [if_neg h, Option.some.injEq] at hr
      subst hr
      set start := commonPrefixLen a b with hstart
      set k := commonPrefixLen (a.drop start).reverse (b.drop start).reverse with hkdef
      have hsa : start ≤ a.length := commonPrefixLen_le_left a b
      have hsb : start ≤ b.length := commonPrefixLen_le_right a b
      have hka : k ≤ a.length - start := by
        simpa using commonPrefixLen_le_left (a.drop start).reverse (b.drop start).reverse
      have hkb : k ≤ b.length - start := by
        simpa using commonPrefixLen_le_right (a.drop start).reverse (b.drop start).reverse
      have htake : a.take start = b.take start := take_commonPrefixLen_eq a b
      have hsufrev : (a.drop start).reverse.take k = (b.drop start).reverse.take k :=
        take_commonPrefixLen_eq _ _
      have hsuf := drop_suffix_eq (a.drop start) (b.drop start) k hsufrev
      rw [List.length_drop, List.length_drop, List.drop_drop, List.drop_drop] at hsuf
      have hia : start + (a.length - start - k) = a.length - k := by omega
      have hib : start + (b.length - start - k) = b.length - k := by omega
      rw [hia, hib] at hsuf
      have htn : (((a.length : Int) - 1 - k) + 1).toNat = a.length - k := by omega
      unfold applyEdit
      simp only [htn, hsuf, htake]
      have h1 : b.take start = (b.take (b.length - k)).take start := by
        rw [List.take_take, min_eq_left (by omega)]
      rw [h1, List.take_append_drop]
      exact List.take_append_drop _ b

/-- Witness for `computeMinimalEdit_spec` at the repository's own middle-change
test case (`'aXc' → 'aYc'`, `src/test/minimalEdit.test.ts`). -/
theorem computeMinimalEdit_spec_witness :
    computeMinimalEdit "aXc".data "aYc".data =
      some ⟨1, 1, 1, ['Y']⟩ ∧
    applyEdit "aXc".data ⟨1, 1, 1, ['Y']⟩ = "aYc".data :=
  ⟨by decide, (computeMinimalEdit_spec "aXc".data "aYc".data).2 _ (by decide)⟩

/-! ## Frame scheduler (`src/utils/raf.ts`)

The module keeps a module-level map `ids : Record<string, number | null>`
from operation kind to the outstanding `requestAnimationFrame` handle.  The
browser frame queue is embedded as the list `pending` of `(handle, kind,
callback)` triples in registration order; `requestAnimationFrame` appends,
`cancelAnimationFrame` removes by handle, and a frame tick runs every pending
callback in order (each wrapper first clears its kind's slot). -/

def assocFind (k : String) : List (String × Nat) → Option Nat
  | [] => none
  | (k', v) :: rest => if k' = k then some v else assocFind k rest

def assocErase (k : String) : List (String × Nat) → List (String × Nat)
  | [] => []
  | (k', v) :: rest => if k' = k then assocErase k rest else (k', v) :: assocErase k rest

def assocSet (k : String) (v : Nat) (l : List (String × Nat)) : List (String × Nat) :=
  (k, v) :: assocErase k l

structure RafState (α : Type) where
  nextId : Nat
  pending : List (Nat × String × α)
  ids : List (String × Nat)
deriving DecidableEq

def emptyRaf (α : Type) : RafState α := ⟨0, [], []⟩

/-- `schedule(kind, cb)`: cancel the previously stored handle for `kind` (if
any), register `cb` for the next frame and store its handle under `kind`. -/
def rafSchedule {α : Type} (kind : String) (cb : α) (s : RafState α) : RafState α :=
  let p := match assocFind kind s.ids with
    | some handle => s.pending.filter (fun e => e.1 != handle)
    | none => s.pending
  { nextId := s.nextId + 1
    pending := p ++ [(s.nextId, kind, cb)]
    ids := assocSet kind s.nextId s.ids }

/-- `cancel(kind)`: cancel the stored handle for `kind` and clear the slot;
a kind with no stored handle is left untouched. -/
def rafCancel {α : Type} (kind : String) (s : RafState α) : RafState α :=
  match assocFind kind s.ids with
  | some handle =>
      { s with pending := s.pending.filter (fun e => e.1 != handle)
               ids := assocErase kind s.ids }
  | none => s

/-- A frame tick: every pending callback runs in registration order; each
wrapper clears `ids[kind]` before invoking the callback.  Returns the new
state and the list of callbacks that were executed. -/
def fireFrame {α : Type} (s : RafState α) : RafState α × List α :=
  ({ nextId := s.nextId
     pending := []
     ids := s.pending.foldl (fun m e => assocErase e.2.1 m) s.ids }
   , s.pending.map (fun e => e.2.2))

/-- C4: for every operation kind, scheduling twice before the frame fires
yields exactly one callback execution, namely the second callback; cancelling
before the frame fires yields zero executions; cancelling a kind with nothing
pending is a no-op. -/
theorem raf_schedule_last_write_wins {α : Type} (k : String) (cb1 cb2 : α) :
    (fireFrame (rafSchedule k cb2 (rafSchedule k cb1 (emptyRaf α)))).2 = [cb2] ∧
    (fireFrame (rafCancel k (rafSchedule k cb1 (emptyRaf α)))).2 = [] ∧
    ∀ s : RafState α, assocFind k s.ids = none → rafCancel k s = s := by
  refine ⟨?_, ?_, ?_⟩
  · simp [rafSchedule, fireFrame, emptyRaf, assocFind, assocSet, assocErase]
  · simp [rafSchedule, rafCancel, fireFrame, emptyRaf, assocFind, assocSet, assocErase]
  · intro s h
    unfold rafCancel
    rw [h]

/-- Witness for `raf_schedule_last_write_wins` at kind `"update"` with `Nat`
callbacks. -/
theorem raf_schedule_last_write_wins_witness :
    (fireFrame (rafSchedule "update" 2 (rafSchedule "update" 1 (emptyRaf Nat)))).2 = [2] ∧
    (fireFrame (rafCancel "update" (rafSchedule "update" 1 (emptyRaf Nat)))).2 = [] ∧
    rafCancel "update" (emptyRaf Nat) = emptyRaf Nat := by
  have h := raf_schedule_last_write_wins (α := Nat) "update" 1 2
  exact ⟨h.1, h.2.1, h.2.2 (emptyRaf Nat) (by decide)⟩

/-- `createRafScheduler` (`src/utils/raf.ts`): the `ids` map and the
`schedule`/`cancel` functions are module-level; the factory merely returns
`{ schedule, cancel }`, so every returned handle is the same stateless pair
of functions operating on the one module-level map. -/
structure RafSchedulerHandle where
deriving DecidableEq

def createRafScheduler (_u : Unit) : RafSchedulerHandle := {}

/-- `schedule` invoked through a handle: acts on the shared module state. -/
def handleSchedule {α : Type} (_h : RafSchedulerHandle) (kind : String) (cb : α)
    (s : RafState α) : RafState α :=
  rafSchedule kind cb s

/-- `cancel` invoked through a handle: acts on the shared module state. -/
def handleCancel {α : Type} (_h : RafSchedulerHandle) (kind : String)
    (s : RafState α) : RafState α :=
  rafCancel kind s

/-- C5 counterexample: two schedulers obtained from separate
`createRafScheduler()` calls share the module-level `ids` map, so the second
manager's `schedule("update", ·)` cancels the first manager's pending
`"update"` callback: after both schedule, the frame executes only the second
callback (`2`) and the first (`1`) never runs — refuting the claim that
scheduling on one scheduler never affects the other's pending callback of the
same kind. -/
theorem raf_scheduler_not_isolated_counterexample :
    (fireFrame (handleSchedule (createRafScheduler ()) "update" 2
      (handleSchedule (createRafScheduler ()) "update" 1 (emptyRaf Nat)))).2 = [2] ∧
    1 ∉ (fireFrame (handleSchedule (createRafScheduler ()) "update" 2
      (handleSchedule (createRafScheduler ()) "update" 1 (emptyRaf Nat)))).2 := by
  decide

/-- C5 amended: distinct manager instances additionally share the frame
scheduler's module-level kind→handle map: all `createRafScheduler()` results
are the same function pair over that one map, so scheduling a kind on one
manager's scheduler cancels another manager's pending callback of the same
kind (only the later callback runs), while callbacks of distinct kinds are
unaffected (both run). -/
theorem raf_scheduler_shared_state {α : Type} (k k' : String) (cbA cbB : α)
    (hne : k' ≠ k) :
    createRafScheduler () = createRafScheduler () ∧
    (fireFrame (handleSchedule (createRafScheduler ()) k cbB
      (handleSchedule (createRafScheduler ()) k cbA (emptyRaf α)))).2 = [cbB] ∧
    (fireFrame (handleSchedule (createRafScheduler ()) k' cbB
      (handleSchedule (createRafScheduler ()) k cbA (emptyRaf α)))).2 = [cbA, cbB] := by
  have hne' : ¬(k = k') := fun h => hne h.symm
  refine ⟨rfl, ?_, ?_⟩
  · simp [handleSchedule, rafSchedule, fireFrame, emptyRaf, assocFind, assocSet, assocErase]
  · simp [handleSchedule, rafSchedule, fireFrame, emptyRaf, assocFind, assocSet, assocErase, hne']

/-- Witness for `raf_scheduler_shared_state` at kinds `"update"`/`"append"`. -/
theorem raf_scheduler_shared_state_witness :
    (fireFrame (handleSchedule (createRafScheduler ()) "update" 2
      (handleSchedule (createRafScheduler ()) "update" 1 (emptyRaf Nat)))).2 = [2] ∧
    (fireFrame (handleSchedule (createRafScheduler ()) "append" 2
      (handleSchedule (createRafScheduler ()) "update" 1 (emptyRaf Nat)))).2 = [1, 2] :=
  ⟨(raf_scheduler_shared_state "update" "append" 1 2 (by decide)).2.1,
   (raf_scheduler_shared_state "update" "append" 1 2 (by decide)).2.2⟩

/-! ## Viewport follower (`src/utils/scroll.ts` + `EditorManager`)

`createScrollWatcherForEditor` records the last scroll top and, per scroll
event, computes `delta = currentTop - last`; a negative delta calls
`onPause` (the manager sets `shouldAutoScroll = false`), otherwise
`onMaybeResume` (the manager sets `shouldAutoScroll = userIsNearBottom()`).
The metrics read by `userIsNearBottom` at check time are passed in
explicitly. -/

structure ScrollMetrics where
  scrollTop : Int
  viewportHeight : Int
  scrollHeight : Int
  lineHeight : Int
deriving DecidableEq

structure FollowConfig where
  autoScrollThresholdPx : Int
  autoScrollThresholdLines : Int
deriving DecidableEq

structure FollowState where
  lastScrollTop : Int
  following : Bool
deriving DecidableEq

/-- `threshold = Math.max(lineThreshold, autoScrollThresholdPx)` with
`lineThreshold = autoScrollThresholdLines * lineHeight`
(`userIsNearBottom`, `src/core/EditorManager.ts`). -/
def followThreshold (cfg : FollowConfig) (m : ScrollMetrics) : Int :=
  max (cfg.autoScrollThresholdLines * m.lineHeight) cfg.autoScrollThresholdPx

/-- `distance = scrollHeight - (scrollTop + li.height)`. -/
def distanceToBottom (m : ScrollMetrics) : Int :=
  m.scrollHeight - (m.scrollTop + m.viewportHeight)

/-- `userIsNearBottom`: the distance to the bottom is at most the threshold. -/
def userIsNearBottom (cfg : FollowConfig) (m : ScrollMetrics) : Bool :=
  distanceToBottom m ≤ followThreshold cfg m

/-- One scroll event through `createScrollWatcherForEditor` wired to the
manager's `onPause`/`onMaybeResume` callbacks: update the recorded scroll
top; a negative delta pauses following unconditionally; otherwise following
is set to `userIsNearBottom` evaluated on the metrics at check time. -/
def scrollEventStep (cfg : FollowConfig) (st : FollowState) (m : ScrollMetrics) :
    FollowState :=
  let delta := m.scrollTop - st.lastScrollTop
  let st' : FollowState := { st with lastScrollTop := m.scrollTop }
  if delta < 0 then { st' with following := false }
  else { st' with following := userIsNearBottom cfg m }

/-- C6: every scroll event with negative delta transitions to Paused
unconditionally; every scroll event with non-negative delta while the
distance to the bottom is at most `max(pixel threshold, line threshold ×
line height)` leaves the state Following. -/
theorem scroll_watcher_transitions (cfg : FollowConfig) (st : FollowState)
    (m : ScrollMetrics) :
    (m.scrollTop - st.lastScrollTop < 0 →
      (scrollEventStep cfg st m).following = false) ∧
    (0 ≤ m.scrollTop - st.lastScrollTop →
      distanceToBottom m ≤ followThreshold cfg m →
      (scrollEventStep cfg st m).following = true) := by
  constructor
  · intro h
    simp [scrollEventStep, h]
  · intro h1 h2
    simp [scrollEventStep, userIsNearBottom, not_lt.mpr h1, h2]

/-- Witness for `scroll_watcher_transitions`: an upward scroll (120 → 80)
pauses; a downward scroll (80 → 120) landing 20px from the bottom with a
32px threshold resumes. -/
theorem scroll_watcher_transitions_witness :
    (scrollEventStep ⟨32, 2⟩ ⟨120, true⟩ ⟨80, 300, 600, 18⟩).following = false ∧
    (scrollEventStep ⟨32, 2⟩ ⟨80, false⟩ ⟨120, 300, 440, 18⟩).following = true :=
  ⟨(scroll_watcher_transitions ⟨32, 2⟩ ⟨120, true⟩ ⟨80, 300, 600, 18⟩).1 (by decide),
   (scroll_watcher_transitions ⟨32, 2⟩ ⟨80, false⟩ ⟨120, 300, 440, 18⟩).2
     (by decide) (by decide)⟩

/-! ## Single-buffer manager (`src/core/EditorManager.ts`)

The manager is embedded as a state record over the content-relevant fields;
reveal/scroll/height bookkeeping (`maybeScrollToBottom`, cached metrics,
height manager) mutates no buffer content and is elided.  The Monaco model
is embedded as its value plus language id; the `onDidChangeModelContent`
listener keeps `lastKnownCode` equal to `getValue()`, which the explicit
assignments below reproduce.  `processedLanguage` (`src/code.detect.ts`,
not in the snapshot) is taken as a parameter `pl`, with `none` standing for
a falsy result. -/

structure ModelState (α : Type) where
  value : List α
  langId : String
deriving DecidableEq

structure EMState (α : Type) where
  editorView : Option (ModelState α)
  lastKnownCode : Option (List α)
  pendingUpdate : Option (List α × String)
  appendBuffer : List (List α)
  appendBufferScheduled : Bool
  updateScheduled : Bool
  diffComputeCount : Nat
deriving DecidableEq

def emInitial (α : Type) : EMState α :=
  { editorView := none, lastKnownCode := none, pendingUpdate := none
    appendBuffer := [], appendBufferScheduled := false, updateScheduled := false
    diffComputeCount := 0 }

/-- `cleanup()`: cancel scheduled work, clear buffers, dispose the editor. -/
def emCleanup {α : Type} (s : EMState α) : EMState α :=
  { editorView := none, lastKnownCode := none, pendingUpdate := none
    appendBuffer := [], appendBufferScheduled := false, updateScheduled := false
    diffComputeCount := s.diffComputeCount }

/-- `createEditor(container, code, language, theme)`: cleanup, then create a
model with the given content and `processedLanguage(language) || language`;
`lastKnownCode` is initialised from `getValue()`. -/
def emCreateEditor {α : Type} (pl : String → Option String) (code : List α)
    (language : String) (s : EMState α) : EMState α :=
  let s := emCleanup s
  { s with editorView := some ⟨code, (pl language).getD language⟩
           lastKnownCode := some code }

/-- `updateCode(newCode, codeLanguage)`: store the pending update and
schedule the flush under kind `"update"`. -/
def emUpdateCode {α : Type} (newCode : List α) (lang : String) (s : EMState α) :
    EMState α :=
  { s with pendingUpdate := some (newCode, lang), updateScheduled := true }

/-- `appendCode(appendText, codeLanguage?)`: optional language switch, apply
the text as an edit at the end-of-document position, refresh `lastKnownCode`
from `getValue()`, then push the fragment onto the append buffer and
schedule its flush under kind `"append"`. -/
def emAppendCode {α : Type} [DecidableEq α] (pl : String → Option String)
    (text : List α) (lang? : Option String) (s : EMState α) : EMState α :=
  match s.editorView with
  | none => s
  | some m =>
    let pcl : Option String := match lang? with
      | some l => pl l
      | none => some m.langId
    let m := match pcl with
      | some p => if m.langId ≠ p then { m with langId := p } else m
      | none => m
    let m := { m with value := m.value ++ text }
    let s := { s with editorView := some m, lastKnownCode := some m.value }
    if text ≠ [] then
      { s with appendBuffer := s.appendBuffer ++ [text]
               appendBufferScheduled := true }
    else s

/-- `applyMinimalEdit(prev, next)`: run `computeMinimalEdit` and apply the
offset-range replacement to the current model value. -/
def emApplyMinimalEdit {α : Type} [DecidableEq α] (prev next : List α)
    (s : EMState α) : EMState α :=
  match s.editorView with
  | none => s
  | some m =>
    let s := { s with diffComputeCount := s.diffComputeCount + 1 }
    match computeMinimalEdit prev next with
    | none => s
    | some r => { s with editorView := some { m with value := applyEdit m.value r } }

/-- `flushPendingUpdate()`: no-op without a pending update or editor;
language mismatch → switch language and `setValue` (full replace); pure
suffix append → delegate the suffix to `appendCode`; otherwise minimal-diff
replace.  Line-count/scroll bookkeeping is elided. -/
def emFlushPendingUpdate {α : Type} [DecidableEq α] (pl : String → Option String)
    (s : EMState α) : EMState α :=
  match s.pendingUpdate, s.editorView with
  | some (newCode, lang), some m =>
    let s := { s with pendingUpdate := none }
    let pcl := pl lang
    if pcl ≠ some m.langId then
      { s with editorView := some ⟨newCode, pcl.getD m.langId⟩
               lastKnownCode := some newCode }
    else
      let prevCode := s.lastKnownCode.getD m.value
      if prevCode = newCode then s
      else if newCode.take prevCode.length = prevCode ∧ prevCode.length < newCode.length then
        let suffix := newCode.drop prevCode.length
        let s := if suffix ≠ [] then emAppendCode pl suffix (some lang) s else s
        { s with lastKnownCode := some newCode }
      else
        let s := emApplyMinimalEdit prevCode newCode s
        { s with lastKnownCode := some newCode }
  | _, _ => s

/-- `flushAppendBuffer()`: join the buffered fragments and apply them as one
edit at the end-of-document position, extending `lastKnownCode`. -/
def emFlushAppendBuffer {α : Type} [DecidableEq α] (s : EMState α) : EMState α :=
  match s.editorView with
  | none => s
  | some m =>
    if s.appendBuffer = [] then s
    else
      let text := s.appendBuffer.flatten
      let m := { m with value := m.value ++ text }
      { s with appendBufferScheduled := false
               appendBuffer := []
               editorView := some m
               lastKnownCode := match s.lastKnownCode with
                 | some c => some (c ++ text)
                 | none => none }

/-- `setLanguage(language, languages)`: apply immediately when the language
is in the allow-list, otherwise warn (second component `true`) and change
nothing. -/
def emSetLanguage {α : Type} (language : String) (languages : List String)
    (s : EMState α) : EMState α × Bool :=
  if language ∈ languages then
    (match s.editorView with
     | some m =>
        if m.langId ≠ language then
          { s with editorView := some { m with langId := language } }
        else s
     | none => s, false)
  else (s, true)

/-- C2 (failing scenario): create a buffer with `"line1\n"`, call
`updateCode("line1\nline2\n", lang)` with the same language, run the
scheduled `"update"` flush and then the scheduled `"append"` flush.  The
update flush takes the pure-suffix-append fast path (no diff computation,
content `"line1\nline2\n"` after it), but `appendCode` both applied the
suffix synchronously and buffered it, so the append flush applies the same
suffix a second time and the final content is `"line1\nline2\nline2\n"`,
not `"line1\nline2\n"` as claimed. -/
theorem updateCode_append_flush_applies_suffix_twice :
    (let pl : String → Option String := fun l => some l
     let s1 := emCreateEditor pl "line1\n".data "javascript" (emInitial Char)
     let s2 := emUpdateCode "line1\nline2\n".data "javascript" s1
     let s3 := emFlushPendingUpdate pl s2
     let s4 := emFlushAppendBuffer s3
     s3.editorView.map ModelState.value = some "line1\nline2\n".data ∧
     s3.diffComputeCount = 0 ∧
     s4.diffComputeCount = 0 ∧
     s4.editorView.map ModelState.value = some "line1\nline2\nline2\n".data ∧
     s4.editorView.map ModelState.value ≠ some "line1\nline2\n".data) := by
  decide

/-! ## Dual-buffer manager (`src/core/DiffEditorManager.ts`)

Embedded analogously to the single-buffer manager: `hasView` models whether
`diffEditorView` is non-null, each side's Monaco model is its value plus
language id, and reveal/scroll/height/line-count bookkeeping
(`maybeScrollDiffToBottom`, `lastKnownModifiedLineCount`, cached metrics) is
elided as it mutates no buffer content. -/

structure DMState (α : Type) where
  hasView : Bool
  originalModel : Option (ModelState α)
  modifiedModel : Option (ModelState α)
  lastKnownOriginalCode : Option (List α)
  lastKnownModifiedCode : Option (List α)
  pendingDiffUpdate : Option (List α × List α × Option String)
  appendBufferDiff : List (List α)
  appendBufferDiffScheduled : Bool
  diffScheduled : Bool
  diffComputeCount : Nat
deriving DecidableEq

def dmInitial (α : Type) : DMState α :=
  { hasView := false, originalModel := none, modifiedModel := none
    lastKnownOriginalCode := none, lastKnownModifiedCode := none
    pendingDiffUpdate := none, appendBufferDiff := []
    appendBufferDiffScheduled := false, diffScheduled := false
    diffComputeCount := 0 }

/-- `cleanup()`: cancel scheduled work, clear buffers, dispose view and
models. -/
def dmCleanup {α : Type} (s : DMState α) : DMState α :=
  { dmInitial α with diffComputeCount := s.diffComputeCount }

/-- `createDiffEditor(container, originalCode, modifiedCode, language,
theme)`: cleanup, create both models with
`processedLanguage(language) || language`, record both last-known codes. -/
def dmCreateDiffEditor {α : Type} (pl : String → Option String)
    (originalCode modifiedCode : List α) (language : String) (s : DMState α) :
    DMState α :=
  let s := dmCleanup s
  let lang := (pl language).getD language
  { s with hasView := true
           originalModel := some ⟨originalCode, lang⟩
           modifiedModel := some ⟨modifiedCode, lang⟩
           lastKnownOriginalCode := some originalCode
           lastKnownModifiedCode := some modifiedCode }

/-- `appendToModel(model, appendText)`: no-op for empty text, otherwise an
edit at the end-of-document position. -/
def dmAppendToModel {α : Type} [DecidableEq α] (m : ModelState α) (text : List α) : ModelState α :=
  if text = [] then m else { m with value := m.value ++ text }

/-- Optional language switch used by the diff update/append entry points:
`if (codeLanguage) { const lang = processedLanguage(codeLanguage); if (lang
&& model.getLanguageId() !== lang) setModelLanguage(model, lang) }`. -/
def dmMaybeSwitchLang {α : Type} (pl : String → Option String)
    (lang? : Option String) (m : ModelState α) : ModelState α :=
  match lang? with
  | some l =>
    match pl l with
    | some p => if m.langId ≠ p then { m with langId := p } else m
    | none => m
  | none => m

/-- `applyMinimalEditToModel`'s effect on a model value. -/
def dmApplyMinimalEditVal {α : Type} [DecidableEq α] (prev next v : List α) :
    List α :=
  match computeMinimalEdit prev next with
  | none => v
  | some r => applyEdit v r

/-- `appendOriginal(appendText, codeLanguage?)`: guarded on view, model and
non-empty text; optional language switch, append at end, refresh the
last-known original code from `getValue()`. -/
def dmAppendOriginal {α : Type} [DecidableEq α] (pl : String → Option String) (text : List α)
    (lang? : Option String) (s : DMState α) : DMState α :=
  match s.originalModel with
  | none => s
  | some m =>
    if ¬s.hasView ∨ text = [] then s
    else
      let m := dmMaybeSwitchLang pl lang? m
      let m := dmAppendToModel m text
      { s with originalModel := some m, lastKnownOriginalCode := some m.value }

/-- `appendModified(appendText, codeLanguage?)`: as `appendOriginal` on the
modified side, and additionally push the fragment onto the diff append
buffer and schedule its flush under kind `"appendDiff"`. -/
def dmAppendModified {α : Type} [DecidableEq α] (pl : String → Option String) (text : List α)
    (lang? : Option String) (s : DMState α) : DMState α :=
  match s.modifiedModel with
  | none => s
  | some m =>
    if ¬s.hasView ∨ text = [] then s
    else
      let m := dmMaybeSwitchLang pl lang? m
      let m := dmAppendToModel m text
      let s := { s with modifiedModel := some m
                        lastKnownModifiedCode := some m.value }
      { s with appendBufferDiff := s.appendBufferDiff ++ [text]
               appendBufferDiffScheduled := true }

/-- `flushAppendBufferDiff()`: join the buffered fragments and apply them as
one edit at the end of the modified model, extending the last-known
modified code. -/
def dmFlushAppendBufferDiff {α : Type} [DecidableEq α] (s : DMState α) : DMState α :=
  if ¬s.hasView then s
  else if s.appendBufferDiff = [] then s
  else
    match s.modifiedModel with
    | none => { s with appendBufferDiffScheduled := false, appendBufferDiff := [] }
    | some m =>
      let text := s.appendBufferDiff.flatten
      let m := { m with value := m.value ++ text }
      { s with appendBufferDiffScheduled := false
               appendBufferDiff := []
               modifiedModel := some m
               lastKnownModifiedCode := match s.lastKnownModifiedCode with
                 | some c => some (c ++ text)
                 | none => none }

/-- `updateOriginal(newCode, codeLanguage?)`: guarded on view and model;
optional language switch, then no-op when unchanged, suffix append when the
new code strictly extends the last-known code, else minimal-diff replace. -/
def dmUpdateOriginal {α : Type} [DecidableEq α] (pl : String → Option String)
    (newCode : List α) (lang? : Option String) (s : DMState α) : DMState α :=
  match s.originalModel with
  | none => s
  | some m =>
    if ¬s.hasView then s
    else
      let m := dmMaybeSwitchLang pl lang? m
      let s := { s with originalModel := some m }
      let prev := s.lastKnownOriginalCode.getD m.value
      if prev = newCode then s
      else if newCode.take prev.length = prev ∧ prev.length < newCode.length then
        let m := dmAppendToModel m (newCode.drop prev.length)
        { s with originalModel := some m, lastKnownOriginalCode := some newCode }
      else
        let m := { m with value := dmApplyMinimalEditVal prev newCode m.value }
        { s with originalModel := some m
                 lastKnownOriginalCode := some newCode
                 diffComputeCount := s.diffComputeCount + 1 }

/-- `updateModified(newCode, codeLanguage?)`: the modified-side twin of
`updateOriginal` (its extra scroll trigger is elided). -/
def dmUpdateModified {α : Type} [DecidableEq α] (pl : String → Option String)
    (newCode : List α) (lang? : Option String) (s : DMState α) : DMState α :=
  match s.modifiedModel with
  | none => s
  | some m =>
    if ¬s.hasView then s
    else
      let m := dmMaybeSwitchLang pl lang? m
      let s := { s with modifiedModel := some m }
      let prev := s.lastKnownModifiedCode.getD m.value
      if prev = newCode then s
      else if newCode.take prev.length = prev ∧ prev.length < newCode.length then
        let m := dmAppendToModel m (newCode.drop prev.length)
        { s with modifiedModel := some m, lastKnownModifiedCode := some newCode }
      else
        let m := { m with value := dmApplyMinimalEditVal prev newCode m.value }
        { s with modifiedModel := some m
                 lastKnownModifiedCode := some newCode
                 diffComputeCount := s.diffComputeCount + 1 }

/-- `updateDiff(originalCode, modifiedCode, codeLanguage?)`: guarded on view
and both models; on a language mismatch, store a pending diff update and
schedule the `"diff"` flush; otherwise apply each side's pure-suffix append
immediately and schedule a pending diff update for any side that is not a
pure append. -/
def dmUpdateDiff {α : Type} [DecidableEq α] (pl : String → Option String)
    (originalCode modifiedCode : List α) (lang? : Option String) (s : DMState α) :
    DMState α :=
  match s.originalModel, s.modifiedModel with
  | some o, some m =>
    if ¬s.hasView then s
    else
      let plang := lang?.bind pl
      let mismatch : Bool := match plang with
        | some p => o.langId != p || m.langId != p
        | none => false
      if mismatch then
        { s with pendingDiffUpdate := some (originalCode, modifiedCode, lang?)
                 diffScheduled := true }
      else
        let lkO := s.lastKnownOriginalCode.getD o.value
        let lkM := s.lastKnownModifiedCode.getD m.value
        let s := { s with lastKnownOriginalCode := some lkO
                          lastKnownModifiedCode := some lkM }
        let stepO :=
          if originalCode ≠ lkO ∧ originalCode.take lkO.length = lkO then
            { s with originalModel := some (dmAppendToModel o (originalCode.drop lkO.length))
                     lastKnownOriginalCode := some originalCode }
          else s
        let stepM :=
          if modifiedCode ≠ lkM ∧ modifiedCode.take lkM.length = lkM then
            { stepO with
                modifiedModel := some (dmAppendToModel m (modifiedCode.drop lkM.length))
                lastKnownModifiedCode := some modifiedCode }
          else stepO
        if stepM.lastKnownOriginalCode ≠ some originalCode ∨
            stepM.lastKnownModifiedCode ≠ some modifiedCode then
          { stepM with pendingDiffUpdate := some (originalCode, modifiedCode, none)
                       diffScheduled := true }
        else stepM
  | _, _ => s

/-- `setLanguage(language, languages)` on the diff manager: warn (second
component `true`) and change nothing when the language is not in the
allow-list; otherwise switch both sides immediately. -/
def dmSetLanguage {α : Type} (language : String) (languages : List String)
    (s : DMState α) : DMState α × Bool :=
  if ¬(language ∈ languages) then (s, true)
  else
    let s := match s.originalModel with
      | some o =>
        if o.langId ≠ language then
          { s with originalModel := some { o with langId := language } }
        else s
      | none => s
    let s := match s.modifiedModel with
      | some m =>
        if m.langId ≠ language then
          { s with modifiedModel := some { m with langId := language } }
        else s
      | none => s
    (s, false)

/-- C3 (failing scenario): create a dual-buffer editor with `("", "")`, call
`appendModified("out1\n")` then `appendModified("out2\n")`, and run the
scheduled `"appendDiff"` flush.  Each call applied its fragment to the
modified model synchronously and also buffered it, so the flush applies the
joined fragments a second time: the modified buffer ends as
`"out1\nout2\nout1\nout2\n"`, not `"out1\nout2\n"` as claimed; the original
buffer stays `""`. -/
theorem appendModified_flush_applies_fragments_twice :
    (let pl : String → Option String := fun l => some l
     let s1 := dmCreateDiffEditor pl "".data "".data "javascript" (dmInitial Char)
     let s2 := dmAppendModified pl "out1\n".data none s1
     let s3 := dmAppendModified pl "out2\n".data none s2
     let s4 := dmFlushAppendBufferDiff s3
     s3.modifiedModel.map ModelState.value = some "out1\nout2\n".data ∧
     s4.modifiedModel.map ModelState.value = some "out1\nout2\nout1\nout2\n".data ∧
     s4.modifiedModel.map ModelState.value ≠ some "out1\nout2\n".data ∧
     s4.originalModel.map ModelState.value = some "".data) := by
  decide

/-- Characterization of `EditorManager.setLanguage` when the language is
allowed: no warning, and the language id of the (possibly absent) model is
set while its content is untouched. -/
theorem emSetLanguage_mem {α : Type} (language : String) (languages : List String)
    (s : EMState α) (h : language ∈ languages) :
    emSetLanguage language languages s =
      ({ s with editorView := s.editorView.map fun m => { m with langId := language } },
       false) := by
  obtain ⟨ev, lk, pu, ab, abs, us, dc⟩ := s
  unfold emSetLanguage
  rw [if_pos h]
  cases ev with
  | none => simp
  | some m =>
    cases m with
    | mk v l => by_cases hl : l = language <;> simp [hl]

/-- Characterization of `DiffEditorManager.setLanguage` when the language is
allowed: no warning, both sides' language ids are set, contents untouched. -/
theorem dmSetLanguage_mem {α : Type} (language : String) (languages : List String)
    (d : DMState α) (h : language ∈ languages) :
    dmSetLanguage language languages d =
      ({ d with originalModel := d.originalModel.map fun m => { m with langId := language }
                modifiedModel := d.modifiedModel.map fun m => { m with langId := language } },
       false) := by
  obtain ⟨hv, om, mm, lo, lm, pu, ab, abs, ds, dc⟩ := d
  unfold dmSetLanguage
  rw [if_neg (by simpa using h)]
  cases om with
  | none =>
    cases mm with
    | none => simp
    | some m =>
      cases m with
      | mk v l => by_cases hl : l = language <;> simp [hl]
  | some o =>
    cases o with
    | mk vo lo' =>
      cases mm with
      | none => by_cases hlo : lo' = language <;> simp [hlo]
      | some m =>
        cases m with
        | mk vm lm' =>
          by_cases hlo : lo' = language <;> by_cases hl : lm' = language <;>
            simp [hlo, hl]

/-- C9: `setLanguage` with a language outside the allow-list warns, does not
throw, and leaves language and content of every buffer unchanged, on both
managers; with a member language the switch is applied immediately and
contents are untouched. -/
theorem setLanguage_allowlist {α : Type} (language : String)
    (languages : List String) (s : EMState α) (d : DMState α) :
    (language ∉ languages →
      emSetLanguage language languages s = (s, true) ∧
      dmSetLanguage language languages d = (d, true)) ∧
    (language ∈ languages →
      (emSetLanguage language languages s).2 = false ∧
      (emSetLanguage language languages s).1.editorView.map ModelState.value
        = s.editorView.map ModelState.value ∧
      (∀ m, s.editorView = some m →
        (emSetLanguage language languages s).1.editorView
          = some { m with langId := language }) ∧
      (dmSetLanguage language languages d).2 = false ∧
      (dmSetLanguage language languages d).1.originalModel.map ModelState.value
        = d.originalModel.map ModelState.value ∧
      (dmSetLanguage language languages d).1.modifiedModel.map ModelState.value
        = d.modifiedModel.map ModelState.value ∧
      (∀ o, d.originalModel = some o →
        (dmSetLanguage language languages d).1.originalModel
          = some { o with langId := language }) ∧
      (∀ m, d.modifiedModel = some m →
        (dmSetLanguage language languages d).1.modifiedModel
          = some { m with langId := language })) := by
  constructor
  · intro h
    constructor
    · unfold emSetLanguage
      rw [if_neg h]
    · unfold dmSetLanguage
      rw [if_pos (by simpa using h)]
  · intro h
    rw [emSetLanguage_mem language languages s h, dmSetLanguage_mem language languages d h]
    refine ⟨rfl, ?_, ?_, rfl, ?_, ?_, ?_, ?_⟩
    · cases s.editorView <;> simp
    · intro m hm
      simp [hm]
    · cases d.originalModel <;> simp
    · cases d.modifiedModel <;> simp
    · intro o ho
      simp [ho]
    · intro m hm
      simp [hm]

/-- Witness for `setLanguage_allowlist`: scenario 4 of the spec
(`setLanguage("python")` with allowed languages `["javascript"]` warns and
changes nothing) plus an allowed switch to `"javascript"`. -/
theorem setLanguage_allowlist_witness :
    (emSetLanguage "python" ["javascript"]
        (emCreateEditor (fun l => some l) "a".data "typescript" (emInitial Char))
      = (emCreateEditor (fun l => some l) "a".data "typescript" (emInitial Char), true)) ∧
    ((emSetLanguage "javascript" ["javascript"]
        (emCreateEditor (fun l => some l) "a".data "typescript" (emInitial Char))).1.editorView
      = some ⟨"a".data, "javascript"⟩) :=
  ⟨((setLanguage_allowlist "python" ["javascript"]
      (emCreateEditor (fun l => some l) "a".data "typescript" (emInitial Char))
      (dmInitial Char)).1 (by decide)).1,
   (((setLanguage_allowlist "javascript" ["javascript"]
      (emCreateEditor (fun l => some l) "a".data "typescript" (emInitial Char))
      (dmInitial Char)).2 (by decide)).2.2.1 ⟨"a".data, "typescript"⟩ (by decide))⟩

/-- C10: every public content operation invoked while the manager has no
editor (before creation or after `cleanup`) is a harmless no-op on buffer
content: the single-manager operations leave the (absent) editor untouched
and the diff-manager operations return the state unchanged. -/
theorem content_ops_no_editor_noop {α : Type} [DecidableEq α]
    (pl : String → Option String) (newCode text : List α) (lang : String)
    (lang? : Option String) (s : EMState α) (d : DMState α)
    (hs : s.editorView = none) (hd : d.hasView = false) :
    (emUpdateCode newCode lang s).editorView = none ∧
    emAppendCode pl text lang? s = s ∧
    emFlushPendingUpdate pl s = s ∧
    emFlushAppendBuffer s = s ∧
    dmUpdateDiff pl newCode text lang? d = d ∧
    dmUpdateOriginal pl newCode lang? d = d ∧
    dmUpdateModified pl newCode lang? d = d ∧
    dmAppendOriginal pl text lang? d = d ∧
    dmAppendModified pl text lang? d = d := by
  refine ⟨?_, ?_, ?_, ?_, ?_, ?_, ?_, ?_, ?_⟩
  · simp [emUpdateCode, hs]
  · unfold emAppendCode
    rw [hs]
  · unfold emFlushPendingUpdate
    rw [hs]
    cases s.pendingUpdate <;> rfl
  · unfold emFlushAppendBuffer
    rw [hs]
  · unfold dmUpdateDiff
    cases d.originalModel <;> cases d.modifiedModel <;> simp [hd]
  · unfold dmUpdateOriginal
    cases d.originalModel <;> simp [hd]
  · unfold dmUpdateModified
    cases d.modifiedModel <;> simp [hd]
  · unfold dmAppendOriginal
    cases d.originalModel <;> simp [hd]
  · unfold dmAppendModified
    cases d.modifiedModel <;> simp [hd]

/-- Witness for `content_ops_no_editor_noop` on the freshly initialised
(never-created) managers. -/
theorem content_ops_no_editor_noop_witness :
    emAppendCode (fun _ => none) "x".data none (emInitial Char) = emInitial Char ∧
    emFlushPendingUpdate (fun _ => none) (emInitial Char) = emInitial Char ∧
    dmUpdateDiff (fun _ => none) "x".data "y".data none (dmInitial Char) = dmInitial Char ∧
    dmAppendModified (fun _ => none) "x".data none (dmInitial Char) = dmInitial Char := by
  have h := content_ops_no_editor_noop (fun _ => none) "x".data "y".data "js" none
    (emInitial Char) (dmInitial Char) (by decide) (by decide)
  exact ⟨h.2.1, h.2.2.1, h.2.2.2.2.1, h.2.2.2.2.2.2.2.2⟩

/-! ## Highlighter registration cache (`src/utils/registerMonacoThemes.ts`)

`highlighterCache : Map<string, HighlighterEntry>` maps a canonical
serialization of the theme set to `{ promise, languages }`.  Promises are
embedded as identifiers (`pid`) allocated in creation order; every
`createHighlighter` call is recorded in `constructions` together with the
language set it was created for; whether a given construction's promise
rejects is passed in as the flag `constructionFails`, and the `.catch`
restoration handlers are applied to the settled state. -/

def alistFind {κ ν : Type} [DecidableEq κ] (k : κ) : List (κ × ν) → Option ν
  | [] => none
  | (k', v) :: rest => if k' = k then some v else alistFind k rest

def alistErase {κ ν : Type} [DecidableEq κ] (k : κ) : List (κ × ν) → List (κ × ν)
  | [] => []
  | (k', v) :: rest =>
    if k' = k then alistErase k rest else (k', v) :: alistErase k rest

def alistSet {κ ν : Type} [DecidableEq κ] (k : κ) (v : ν) (l : List (κ × ν)) :
    List (κ × ν) :=
  (k, v) :: alistErase k l

def insertSortedStr (x : String) : List String → List String
  | [] => [x]
  | y :: rest =>
    if (compare x y).isLE then x :: y :: rest else y :: insertSortedStr x rest

def sortStrs : List String → List String
  | [] => []
  | x :: rest => insertSortedStr x (sortStrs rest)

/-- `serializeThemes`: `JSON.stringify` of the sorted theme-name array,
embedded as the sorted name list itself. -/
def serializeThemes (themes : List String) : List String := sortStrs themes

/-- `new Set(list)` in iteration order: keep the first occurrence of each
element. -/
def jsSetListGo (seen : List String) : List String → List String
  | [] => []
  | x :: xs =>
    if x ∈ seen then jsSetListGo seen xs else x :: jsSetListGo (x :: seen) xs

def jsSetList (l : List String) : List String := jsSetListGo [] l

/-- `new Set([...covered, ...requested])`: the covered languages followed by
the requested ones not already covered. -/
def unionLangs (covered requested : List String) : List String :=
  covered ++ requested.filter (fun l => decide (l ∉ covered))

structure HLEntry where
  pid : Nat
  langs : List String
deriving DecidableEq

structure HLState where
  cache : List (List String × HLEntry)
  nextPid : Nat
  constructions : List (Nat × List String)
deriving DecidableEq

def hlInitial : HLState := ⟨[], 0, []⟩

/-- `getOrCreateHighlighter(themes, languages)`: full hit → reuse the cached
promise; partial hit (same themes, uncovered languages) → construct one new
highlighter over the union, replace the entry, and restore the previous
entry if (and only if) the construction fails; miss → construct fresh,
cache, and delete the entry if the construction fails.  The JS double-check
re-reads the cache between the covered test and the union creation; in this
sequential embedding the re-read necessarily returns the entry just found,
so the double-check's inner reuse branch is unreachable and elided. -/
def getOrCreateHighlighter (themes languages : List String)
    (constructionFails : Bool) (s : HLState) : HLState × Nat :=
  let key := serializeThemes themes
  let requestedSet := jsSetList languages
  match alistFind key s.cache with
  | some existing =>
    if requestedSet.all (fun l => decide (l ∈ existing.langs)) then
      (s, existing.pid)
    else
      let prev := existing
      let current := alistFind key s.cache
      let existing := current.getD prev
      let union := unionLangs existing.langs requestedSet
      let pid := s.nextPid
      let newEntry : HLEntry := ⟨pid, union⟩
      let cache1 := alistSet key newEntry s.cache
      let cache2 :=
        if constructionFails then
          if alistFind key cache1 = some newEntry then alistSet key prev cache1
          else cache1
        else cache1
      ({ cache := cache2, nextPid := pid + 1
         constructions := s.constructions ++ [(pid, union)] }, pid)
  | none =>
    let pid := s.nextPid
    let entry : HLEntry := ⟨pid, requestedSet⟩
    let cache1 := alistSet key entry s.cache
    let cache2 :=
      if constructionFails then
        if alistFind key cache1 = some entry then alistErase key cache1
        else cache1
      else cache1
    ({ cache := cache2, nextPid := pid + 1
       constructions := s.constructions ++ [(pid, requestedSet)] }, pid)

theorem alistFind_set {κ ν : Type} [DecidableEq κ] (k : κ) (v : ν)
    (l : List (κ × ν)) : alistFind k (alistSet k v l) = some v := by
  simp [alistSet, alistFind]


theorem mem_jsSetListGo (x : String) :
    ∀ (l seen : List String), x ∈ jsSetListGo seen l ↔ x ∈ l ∧ x ∉ seen
  | [], seen => by simp [jsSetListGo]
  | y :: ys, seen => by
    by_cases h : y ∈ seen
    · rw [jsSetListGo, if_pos h, mem_jsSetListGo x ys seen]
      by_cases hxy : x = y
      · subst hxy
        simp [h]
      · simp [hxy]
    · rw [jsSetListGo, if_neg h]
      by_cases hxy : x = y
      · subst hxy
        simp [h]
      · simp only [List.mem_cons, mem_jsSetListGo x ys (y :: seen)]
        simp [hxy]

theorem mem_jsSetList (x : String) (l : List String) :
    x ∈ jsSetList l ↔ x ∈ l := by
  simp [jsSetList, mem_jsSetListGo]

theorem mem_unionLangs_left (x : String) (covered requested : List String)
    (h : x ∈ covered) : x ∈ unionLangs covered requested := by
  simp [unionLangs, h]

theorem mem_unionLangs_right (x : String) (covered requested : List String)
    (h : x ∈ requested) : x ∈ unionLangs covered requested := by
  by_cases hc : x ∈ covered
  · simp [unionLangs, hc]
  · simp [unionLangs, List.mem_filter, h, hc]

/-- Unfolding `getOrCreateHighlighter` on a cache miss. -/
theorem getOrCreate_miss (themes L : List String) (f : Bool) (s : HLState)
    (hf : alistFind (serializeThemes themes) s.cache = none) :
    getOrCreateHighlighter themes L f s =
      ({ cache :=
           if f = true then
             alistErase (serializeThemes themes)
               (alistSet (serializeThemes themes) ⟨s.nextPid, jsSetList L⟩ s.cache)
           else alistSet (serializeThemes themes) ⟨s.nextPid, jsSetList L⟩ s.cache
         nextPid := s.nextPid + 1
         constructions := s.constructions ++ [(s.nextPid, jsSetList L)] },
       s.nextPid) := by
  unfold getOrCreateHighlighter
  simp only [hf]
  simp [alistFind_set]

/-- Unfolding `getOrCreateHighlighter` on a full (covered) cache hit. -/
theorem getOrCreate_hit (themes L : List String) (f : Bool) (s : HLState)
    (e : HLEntry) (hf : alistFind (serializeThemes themes) s.cache = some e)
    (hc : ((jsSetList L).all fun l => decide (l ∈ e.langs)) = true) :
    getOrCreateHighlighter themes L f s = (s, e.pid) := by
  unfold getOrCreateHighlighter
  simp only [hf]
  simp [hc]

/-- Unfolding `getOrCreateHighlighter` on a partial hit (same themes, not all
requested languages covered). -/
theorem getOrCreate_partialHit (themes L : List String) (f : Bool) (s : HLState)
    (e : HLEntry) (hf : alistFind (serializeThemes themes) s.cache = some e)
    (hc : ((jsSetList L).all fun l => decide (l ∈ e.langs)) = false) :
    getOrCreateHighlighter themes L f s =
      ({ cache :=
           if f = true then
             alistSet (serializeThemes themes) e
               (alistSet (serializeThemes themes)
                 ⟨s.nextPid, unionLangs e.langs (jsSetList L)⟩ s.cache)
           else
             alistSet (serializeThemes themes)
               ⟨s.nextPid, unionLangs e.langs (jsSetList L)⟩ s.cache
         nextPid := s.nextPid + 1
         constructions := s.constructions
           ++ [(s.nextPid, unionLangs e.langs (jsSetList L))] },
       s.nextPid) := by
  unfold getOrCreateHighlighter
  simp only [hf]
  simp [hc, alistFind_set, hf]

/-- After a successful request, the cache holds an entry for the theme key
whose promise is the returned one and whose languages cover the request. -/
theorem getOrCreateHighlighter_post (themes L : List String) (s : HLState) :
    ∃ e : HLEntry,
      alistFind (serializeThemes themes)
        (getOrCreateHighlighter themes L false s).1.cache = some e ∧
      e.pid = (getOrCreateHighlighter themes L false s).2 ∧
      ∀ l, l ∈ L → l ∈ e.langs := by
  cases hf : alistFind (serializeThemes themes) s.cache with
  | none =>
    rw [getOrCreate_miss themes L false s hf]
    refine ⟨⟨s.nextPid, jsSetList L⟩, ?_, rfl, ?_⟩
    · simp [alistFind_set]
    · intro l hl
      exact (mem_jsSetList l L).mpr hl
  | some e =>
    by_cases hc : ((jsSetList L).all fun l => decide (l ∈ e.langs)) = true
    · rw [getOrCreate_hit themes L false s e hf hc]
      refine ⟨e, hf, rfl, ?_⟩
      intro l hl
      have := List.all_eq_true.mp hc l ((mem_jsSetList l L).mpr hl)
      simpa using this
    · rw [getOrCreate_partialHit themes L false s e hf (Bool.eq_false_iff.mpr hc)]
      refine ⟨⟨s.nextPid, unionLangs e.langs (jsSetList L)⟩, ?_, rfl, ?_⟩
      · simp [alistFind_set]
      · intro l hl
        exact mem_unionLangs_right _ _ _ ((mem_jsSetList l L).mpr hl)

/-- C7: a second request with the same theme set whose languages are covered
by a first successful request returns the same promise and leaves the cache
state untouched (no second construction); a request with the same themes but
not-yet-covered languages performs exactly one new construction over the
union of covered and requested languages, and afterwards the cache holds the
old entry iff the construction failed (the new union entry iff it
succeeded). -/
theorem highlighter_cache_spec (themes : List String) :
    (∀ (L1 L2 : List String) (f2 : Bool) (s0 : HLState),
      (∀ l, l ∈ L2 → l ∈ L1) →
      getOrCreateHighlighter themes L2 f2 (getOrCreateHighlighter themes L1 false s0).1
        = ((getOrCreateHighlighter themes L1 false s0).1,
           (getOrCreateHighlighter themes L1 false s0).2)) ∧
    (∀ (L : List String) (f : Bool) (s : HLState) (e : HLEntry),
      alistFind (serializeThemes themes) s.cache = some e →
      ((jsSetList L).all fun l => decide (l ∈ e.langs)) = false →
      (getOrCreateHighlighter themes L f s).1.constructions
        = s.constructions
          ++ [((getOrCreateHighlighter themes L f s).2,
               unionLangs e.langs (jsSetList L))] ∧
      (f = true →
        alistFind (serializeThemes themes)
          (getOrCreateHighlighter themes L f s).1.cache = some e) ∧
      (f = false →
        alistFind (serializeThemes themes)
          (getOrCreateHighlighter themes L f s).1.cache
          = some ⟨(getOrCreateHighlighter themes L f s).2,
                  unionLangs e.langs (jsSetList L)⟩)) := by
  constructor
  · intro L1 L2 f2 s0 hsub
    obtain ⟨e, hfind, hpid, hcov⟩ := getOrCreateHighlighter_post themes L1 s0
    have hall : ((jsSetList L2).all fun l => decide (l ∈ e.langs)) = true := by
      rw [List.all_eq_true]
      intro l hl
      exact decide_eq_true (hcov l (hsub l ((mem_jsSetList l L2).mp hl)))
    rw [getOrCreate_hit themes L2 f2 _ e hfind hall, hpid]
  · intro L f s e hfind hall
    rw [getOrCreate_partialHit themes L f s e hfind hall]
    cases f with
    | false =>
      refine ⟨rfl, ?_, ?_⟩
      · intro h
        exact absurd h (by decide)
      · intro _
        simp [alistFind_set]
    | true =>
      refine ⟨rfl, ?_, ?_⟩
      · intro _
        simp [alistFind_set]
      · intro h
        exact absurd h (by decide)

/-- Witness for `highlighter_cache_spec`: a first request constructs for
`["javascript", "typescript"]`; a covered request for `["javascript"]`
returns the same promise without construction; a request for `["python"]`
against a cached entry constructs once over the union, and on failure the
original entry is restored. -/
theorem highlighter_cache_spec_witness :
    (getOrCreateHighlighter ["vitesse-dark", "vitesse-light"] ["javascript"] false
        (getOrCreateHighlighter ["vitesse-dark", "vitesse-light"]
          ["javascript", "typescript"] false hlInitial).1
      = ((getOrCreateHighlighter ["vitesse-dark", "vitesse-light"]
            ["javascript", "typescript"] false hlInitial).1,
         (getOrCreateHighlighter ["vitesse-dark", "vitesse-light"]
            ["javascript", "typescript"] false hlInitial).2)) ∧
    (getOrCreateHighlighter ["vitesse-dark", "vitesse-light"] ["python"] true
        ⟨[(serializeThemes ["vitesse-dark", "vitesse-light"],
           ⟨0, ["javascript", "typescript"]⟩)], 1,
         [(0, ["javascript", "typescript"])]⟩).1.constructions
      = [(0, ["javascript", "typescript"]),
         (1, ["javascript", "typescript", "python"])] ∧
    alistFind (serializeThemes ["vitesse-dark", "vitesse-light"])
        (getOrCreateHighlighter ["vitesse-dark", "vitesse-light"] ["python"] true
          ⟨[(serializeThemes ["vitesse-dark", "vitesse-light"],
             ⟨0, ["javascript", "typescript"]⟩)], 1,
           [(0, ["javascript", "typescript"])]⟩).1.cache
      = some ⟨0, ["javascript", "typescript"]⟩ := by
  refine ⟨?_, ?_, ?_⟩
  · refine (highlighter_cache_spec ["vitesse-dark", "vitesse-light"]).1
      ["javascript", "typescript"] ["javascript"] false hlInitial ?_
    intro l hl
    simp only [List.mem_singleton] at hl
    simp [hl]
  · have h := ((highlighter_cache_spec ["vitesse-dark", "vitesse-light"]).2
      ["python"] true
      ⟨[(serializeThemes ["vitesse-dark", "vitesse-light"],
         ⟨0, ["javascript", "typescript"]⟩)], 1, [(0, ["javascript", "typescript"])]⟩
      ⟨0, ["javascript", "typescript"]⟩ (by simp [alistFind]) (by decide)).1
    simpa [unionLangs] using h
  · exact ((highlighter_cache_spec ["vitesse-dark", "vitesse-light"]).2
      ["python"] true
      ⟨[(serializeThemes ["vitesse-dark", "vitesse-light"],
         ⟨0, ["javascript", "typescript"]⟩)], 1, [(0, ["javascript", "typescript"])]⟩
      ⟨0, ["javascript", "typescript"]⟩ (by simp [alistFind]) (by decide)).2.1 rfl

/-! ## `useMonaco` themes validation (`src/index.ts`)

The current manager-based `useMonaco` computes
`const themes = (monacoOptions.themes && monacoOptions.themes?.length)
  ? monacoOptions.themes : defaultThemes`
and then throws when `!Array.isArray(themes) || themes.length < 2`.  The
embedding is typed over lists of theme names, so the non-array disjunct can
not arise; a missing `themes` option is `none`, and a supplied empty array
is falsy via `.length`. -/

def defaultThemes : List String := ["vitesse-dark", "vitesse-light"]

structure MonacoOptionsThemes where
  themes : Option (List String)
deriving DecidableEq

/-- The effective themes value of `useMonaco`. -/
def effectiveThemes (o : MonacoOptionsThemes) : List String :=
  match o.themes with
  | some ts => if ts.length ≠ 0 then ts else defaultThemes
  | none => defaultThemes

/-- `true` iff `useMonaco` throws its configuration error for this options
value. -/
def useMonacoThemesThrow (o : MonacoOptionsThemes) : Bool :=
  (effectiveThemes o).length < 2

/-- C8 counterexample: the caller supplies an empty themes array — fewer than
two themes — yet `useMonaco` does not throw: the falsy `.length` makes the
effective themes fall back to the two default themes, so construction
proceeds, refuting "for every call where the caller supplies fewer than two
themes, construction fails". -/
theorem useMonaco_empty_themes_does_not_throw :
    (([] : List String).length < 2) ∧
    useMonacoThemesThrow ⟨some []⟩ = false := by
  decide

/-- C8 amended: `useMonaco` throws iff the effective themes value has fewer
than two entries; since an empty (or missing) supplied themes array falls
back to the two default themes, construction fails exactly when the caller
supplies exactly one theme, and proceeds for an empty array or absent
option. -/
theorem useMonaco_themes_validation (ts : List String) :
    (useMonacoThemesThrow ⟨some ts⟩ = true ↔ ts.length = 1) ∧
    useMonacoThemesThrow ⟨none⟩ = false ∧
    (useMonacoThemesThrow ⟨some ts⟩ = true ↔
      (effectiveThemes ⟨some ts⟩).length < 2) := by
  refine ⟨?_, by decide, by simp [useMonacoThemesThrow]⟩
  cases ts with
  | nil => decide
  | cons x xs =>
    have he : effectiveThemes ⟨some (x :: xs)⟩ = x :: xs := by
      simp [effectiveThemes]
    unfold useMonacoThemesThrow
    rw [he]
    simp only [decide_eq_true_eq, List.length_cons]
    omega
